import Mathlib

/-!
Shallow embedding of the roguelike-chess core board logic:
`src/core/types.ts`, `src/core/Unit.ts`, `src/core/BoardManager.ts`, and the
enemy blunder-chance computation of `src/scenes/BattleScene.ts`.

Modelling conventions:
* TS `number` coordinates are modelled as `Int`; the `rows`/`cols` dimension
  fields as `Nat`.
* Object identity of `Unit` instances is modelled by an extra `id : Nat`
  field; mutation of a unit referenced from a grid cell is modelled by
  updating the value stored in that cell.
* A `Buff` record is identified by its `BuffType` tag: `hasBuff` in the code
  only ever inspects `buff.type`, so buff name and description are dropped.
* The TS decimal literals `0.2` and `0.4` are modelled as the exact rationals
  `1/5` and `2/5`.
* Out-of-range list reads yield `none`, matching `undefined` checks in TS;
  all in-code grid accesses happen behind `isValidPosition` guards or on
  coordinates obtained from valid positions.
-/

namespace RC

/-- Teams, from `types.ts`. -/
inductive Team where
  | PLAYER
  | ENEMY
deriving DecidableEq

/-- Piece kinds, from `types.ts`. -/
inductive PieceType where
  | PAWN
  | ROOK
  | KNIGHT
  | BISHOP
  | QUEEN
  | KING
deriving DecidableEq

/-- Buff kinds, from `types.ts`. -/
inductive BuffType where
  | SHIELD
  | BACKWARD_MOVEMENT
  | EXTRA_RANGE
  | FIRE_DAMAGE
  | ICE_SLOW
  | LIGHTNING_CHAIN
  | DOUBLE_MOVE
  | HEAL_ON_CAPTURE
deriving DecidableEq

/-- A board position, from `types.ts` (`row`/`col` are TS numbers). -/
structure Position where
  row : Int
  col : Int
deriving DecidableEq

/-- A chess unit, from `Unit.ts`.  The `id` field models TS object identity;
the remaining fields are the mutable instance fields of the `Unit` class. -/
structure Unit where
  id : Nat
  type : PieceType
  team : Team
  pos : Position
  buffs : List BuffType
  health : Int
  maxHealth : Int
  hasMoved : Bool
deriving DecidableEq

/-- `Unit.hasBuff` from `Unit.ts`. -/
def hasBuff (u : Unit) (bt : BuffType) : Bool :=
  u.buffs.any (fun b => b = bt)

/-- The grid type: `(Unit | null)[][]` from `BoardManager.ts`. -/
abbrev Grid := List (List (Option Unit))

/-- The `BoardManager` state: `grid`, `rows`, `cols`. -/
structure BoardManager where
  rows : Nat
  cols : Nat
  grid : Grid
deriving DecidableEq

/-- Raw grid read `grid[row][col]`; a negative or out-of-range index yields
`none` (TS `undefined`). -/
def getCell (g : Grid) (p : Position) : Option Unit :=
  if p.row < 0 ∨ p.col < 0 then none
  else
    match g[p.row.toNat]? with
    | none => none
    | some row =>
      match row[p.col.toNat]? with
      | none => none
      | some cell => cell

/-- Raw grid write `grid[row][col] = v`; out-of-range writes are dropped. -/
def setCell (g : Grid) (p : Position) (v : Option Unit) : Grid :=
  if p.row < 0 ∨ p.col < 0 then g
  else
    match g[p.row.toNat]? with
    | none => g
    | some row => g.set p.row.toNat (row.set p.col.toNat v)

/-- `BoardManager.isValidPosition`. -/
def isValidPosition (b : BoardManager) (p : Position) : Bool :=
  decide (0 ≤ p.row ∧ p.row < (b.rows : Int) ∧ 0 ≤ p.col ∧ p.col < (b.cols : Int))

/-- `BoardManager.getUnit`. -/
def getUnit (b : BoardManager) (p : Position) : Option Unit :=
  if isValidPosition b p then getCell b.grid p else none

/-- `BoardManager.placeUnit`: returns the TS boolean result and the updated
board (`unit.setPosition(pos)` is modelled by storing the unit with its `pos`
field set). -/
def placeUnit (b : BoardManager) (u : Unit) (p : Position) : Bool × BoardManager :=
  if ¬ isValidPosition b p then (false, b)
  else if (getCell b.grid p).isSome then (false, b)
  else (true, { b with grid := setCell b.grid p (some { u with pos := p }) })

/-- `BoardManager.moveUnit`: returns the captured unit (if any) and the
updated board. -/
def moveUnit (b : BoardManager) (fromPos toPos : Position) : Option Unit × BoardManager :=
  if ¬ isValidPosition b fromPos ∨ ¬ isValidPosition b toPos then (none, b)
  else
    match getCell b.grid fromPos with
    | none => (none, b)
    | some u =>
      let captured := getCell b.grid toPos
      let g1 := setCell b.grid toPos (some { u with pos := toPos })
      let g2 := setCell g1 fromPos none
      (captured, { b with grid := g2 })

/-- `BoardManager.removeUnit`. -/
def removeUnit (b : BoardManager) (p : Position) : Option Unit × BoardManager :=
  if ¬ isValidPosition b p then (none, b)
  else (getCell b.grid p, { b with grid := setCell b.grid p none })

/-- Row-major list of cell indices `(r, c)` with `r < rows`, `c < cols`;
used to model the double `for` loops of `BoardManager`. -/
def cellIndices (rows cols : Nat) : List (Nat × Nat) :=
  (List.range rows).flatMap (fun r => (List.range cols).map (fun c => (r, c)))

/-- `BoardManager.updateAllUnitPositions`: iterates over `r < rows`,
`c < cols` with the CURRENT values of the `rows`/`cols` fields and calls
`setPosition({row: r + rowOffset, col: c + colOffset})` on each occupant. -/
def updatePosStep (rowOffset colOffset : Int) (g : Grid) (rc : Nat × Nat) : Grid :=
  match getCell g ⟨(rc.1 : Int), (rc.2 : Int)⟩ with
  | some u =>
    setCell g ⟨(rc.1 : Int), (rc.2 : Int)⟩
      (some { u with pos := ⟨(rc.1 : Int) + rowOffset, (rc.2 : Int) + colOffset⟩ })
  | none => g

def updateAllUnitPositions (b : BoardManager) (rowOffset colOffset : Int) : BoardManager :=
  { b with grid :=
      (cellIndices b.rows b.cols).foldl (updatePosStep rowOffset colOffset) b.grid }

/-- `BoardManager.addRows`.  Note the TS order of operations: the grid is
re-assigned, then (only for `addToTop`) `updateAllUnitPositions(count, 0)`
runs while `this.rows` still holds the OLD row count, and only afterwards is
`this.rows` incremented. -/
def addRows (b : BoardManager) (count : Nat) (addToTop : Bool) : BoardManager :=
  let newRows : Grid := List.replicate count (List.replicate b.cols none)
  if addToTop then
    let b1 := { b with grid := newRows ++ b.grid }
    let b2 := updateAllUnitPositions b1 (count : Int) 0
    { b2 with rows := b.rows + count }
  else
    { b with grid := b.grid ++ newRows, rows := b.rows + count }

/-- `BoardManager.addColumns`.  As in the TS code, position updates (for
`addToLeft`) run while `this.cols` still holds the OLD column count. -/
def addColumns (b : BoardManager) (count : Nat) (addToLeft : Bool) : BoardManager :=
  let newCells : List (Option Unit) := List.replicate count none
  let widen : List (Option Unit) → List (Option Unit) :=
    fun row => if addToLeft then newCells ++ row else row ++ newCells
  let b1 := { b with grid := b.grid.map widen }
  if addToLeft then
    let b2 := updateAllUnitPositions b1 0 (count : Int)
    { b2 with cols := b.cols + count }
  else
    { b1 with cols := b.cols + count }

/-- `BoardManager.getUnitsByTeam`: row-major scan of the grid bounded by the
`rows`/`cols` fields. -/
def getUnitsByTeam (b : BoardManager) (t : Team) : List Unit :=
  (cellIndices b.rows b.cols).filterMap
    (fun rc =>
      match getCell b.grid ⟨(rc.1 : Int), (rc.2 : Int)⟩ with
      | some u => if u.team = t then some u else none
      | none => none)

/-- `Unit.isValidMove` (protected helper in `Unit.ts`): within bounds and not
occupied by a friendly unit. -/
def isValidMoveFor (b : BoardManager) (team : Team) (p : Position) : Bool :=
  if ¬ isValidPosition b p then false
  else
    match getUnit b p with
    | none => true
    | some target => decide (target.team ≠ team)

/-- The sliding-ray loop shared by Rook/Bishop/Queen in `Unit.ts`: walk
`distance = 1, 2, ...` up to `maxRange` steps in direction `dir`, stopping at
the board edge or at the first occupied square (which is included when it
holds an enemy).  `fuel` counts the remaining iterations. -/
def rayWalk (b : BoardManager) (team : Team) (base dir : Position) :
    Nat → Int → List Position
  | 0, _ => []
  | fuel + 1, distance =>
    let newPos : Position := ⟨base.row + dir.row * distance, base.col + dir.col * distance⟩
    if ¬ isValidPosition b newPos then []
    else
      match getUnit b newPos with
      | none => newPos :: rayWalk b team base dir fuel (distance + 1)
      | some target =>
        if target.team ≠ team then [newPos] else []

/-- Sliding moves along a direction list, with `EXTRA_RANGE` handling. -/
def slideMoves (b : BoardManager) (u : Unit) (currentPos : Position)
    (dirs : List Position) : List Position :=
  let maxRange : Nat := if hasBuff u BuffType.EXTRA_RANGE then 10 else 8
  dirs.flatMap (fun dir => rayWalk b u.team currentPos dir maxRange 1)

/-- `Pawn.getPossibleMoves` from `Unit.ts`. -/
def pawnMoves (b : BoardManager) (u : Unit) (currentPos : Position) : List Position :=
  let dirn : Int := if u.team = Team.PLAYER then -1 else 1
  let forwardPos : Position := ⟨currentPos.row + dirn, currentPos.col⟩
  let forward :=
    if isValidPosition b forwardPos && (getUnit b forwardPos).isNone then
      forwardPos ::
        (if ¬ u.hasMoved then
          let doubleForwardPos : Position := ⟨currentPos.row + dirn * 2, currentPos.col⟩
          if isValidPosition b doubleForwardPos && (getUnit b doubleForwardPos).isNone then
            [doubleForwardPos]
          else []
        else [])
    else []
  let capturePositions : List Position :=
    [⟨currentPos.row + dirn, currentPos.col - 1⟩, ⟨currentPos.row + dirn, currentPos.col + 1⟩]
  let captures := capturePositions.filter (fun p =>
    isValidPosition b p &&
      match getUnit b p with
      | some target => decide (target.team ≠ u.team)
      | none => false)
  let backward :=
    if hasBuff u BuffType.BACKWARD_MOVEMENT then
      let backwardPos : Position := ⟨currentPos.row - dirn, currentPos.col⟩
      if isValidPosition b backwardPos && (getUnit b backwardPos).isNone then
        [backwardPos]
      else []
    else []
  forward ++ captures ++ backward

/-- Rook ray directions, in source order (down, up, right, left). -/
def rookDirs : List Position := [⟨1, 0⟩, ⟨-1, 0⟩, ⟨0, 1⟩, ⟨0, -1⟩]

/-- `Rook.getPossibleMoves`. -/
def rookMoves (b : BoardManager) (u : Unit) (currentPos : Position) : List Position :=
  slideMoves b u currentPos rookDirs

/-- Bishop ray directions, in source order. -/
def bishopDirs : List Position := [⟨1, 1⟩, ⟨1, -1⟩, ⟨-1, 1⟩, ⟨-1, -1⟩]

/-- `Bishop.getPossibleMoves`. -/
def bishopMoves (b : BoardManager) (u : Unit) (currentPos : Position) : List Position :=
  slideMoves b u currentPos bishopDirs

/-- Queen ray directions, in source order. -/
def queenDirs : List Position :=
  [⟨1, 0⟩, ⟨-1, 0⟩, ⟨0, 1⟩, ⟨0, -1⟩, ⟨1, 1⟩, ⟨1, -1⟩, ⟨-1, 1⟩, ⟨-1, -1⟩]

/-- `Queen.getPossibleMoves`. -/
def queenMoves (b : BoardManager) (u : Unit) (currentPos : Position) : List Position :=
  slideMoves b u currentPos queenDirs

/-- The knight offset table from `Unit.ts`, in source order. -/
def knightOffsets : List Position :=
  [⟨2, 1⟩, ⟨2, -1⟩, ⟨-2, 1⟩, ⟨-2, -1⟩, ⟨1, 2⟩, ⟨1, -2⟩, ⟨-1, 2⟩, ⟨-1, -2⟩]

/-- Offset application. -/
def offsetPos (p o : Position) : Position := ⟨p.row + o.row, p.col + o.col⟩

/-- The base (single-hop) knight move list: each of the 8 offsets, kept when
`isValidMove` accepts it. -/
def knightBase (b : BoardManager) (u : Unit) (currentPos : Position) : List Position :=
  (knightOffsets.map (offsetPos currentPos)).filter (fun p => isValidMoveFor b u.team p)

/-- One step of the `DOUBLE_MOVE` accumulation: `moves.push(newPos)` guarded
by `isValidMove` and absence from the accumulated list. -/
def knightStep (b : BoardManager) (team : Team) (moves : List Position)
    (newPos : Position) : List Position :=
  if isValidMoveFor b team newPos && ! moves.contains newPos then
    moves ++ [newPos]
  else moves

/-- `Knight.getPossibleMoves`: the base 8-offset list, extended (under the
`DOUBLE_MOVE` buff) by a second hop from every first-hop destination,
de-duplicated against the live accumulated list. -/
def knightMoves (b : BoardManager) (u : Unit) (currentPos : Position) : List Position :=
  let base := knightBase b u currentPos
  if hasBuff u BuffType.DOUBLE_MOVE then
    base.foldl
      (fun moves intermediatePos =>
        knightOffsets.foldl
          (fun moves o => knightStep b u.team moves (offsetPos intermediatePos o))
          moves)
      base
  else base

/-- King offset directions, in source order. -/
def kingDirs : List Position :=
  [⟨1, 0⟩, ⟨-1, 0⟩, ⟨0, 1⟩, ⟨0, -1⟩, ⟨1, 1⟩, ⟨1, -1⟩, ⟨-1, 1⟩, ⟨-1, -1⟩]

/-- `King.getPossibleMoves`. -/
def kingMoves (b : BoardManager) (u : Unit) (currentPos : Position) : List Position :=
  (kingDirs.map (offsetPos currentPos)).filter (fun p => isValidMoveFor b u.team p)

/-- Dynamic dispatch of `unit.getPossibleMoves(currentPos, board)`. -/
def getPossibleMoves (b : BoardManager) (u : Unit) (currentPos : Position) : List Position :=
  match u.type with
  | PieceType.PAWN => pawnMoves b u currentPos
  | PieceType.ROOK => rookMoves b u currentPos
  | PieceType.KNIGHT => knightMoves b u currentPos
  | PieceType.BISHOP => bishopMoves b u currentPos
  | PieceType.QUEEN => queenMoves b u currentPos
  | PieceType.KING => kingMoves b u currentPos

/-- `BoardManager.getValidMoves`: the piece's possible moves, filtered to
valid positions that are empty or hold an enemy. -/
def getValidMoves (b : BoardManager) (p : Position) : List Position :=
  match getUnit b p with
  | none => []
  | some u =>
    (getPossibleMoves b u p).filter (fun m =>
      isValidPosition b m &&
        match getUnit b m with
        | none => true
        | some target => decide (target.team ≠ u.team))

/-- `BoardManager.isKingInCheck`: find the first KING of `team` in scan
order; if none, `false`; otherwise test whether some enemy unit's valid-move
list contains the king's STORED position. -/
def isKingInCheck (b : BoardManager) (team : Team) : Bool :=
  match (getUnitsByTeam b team).find? (fun u => u.type = PieceType.KING) with
  | none => false
  | some king =>
    let enemyTeam := if team = Team.PLAYER then Team.ENEMY else Team.PLAYER
    (getUnitsByTeam b enemyTeam).any (fun enemy =>
      (getValidMoves b enemy.pos).any (fun m => m = king.pos))

/-- `BoardManager.simulateMove`: unguarded grid writes, and NO update of the
moved unit's stored position. -/
def simulateMove (b : BoardManager) (fromPos toPos : Position) :
    Option Unit × BoardManager :=
  let u := getCell b.grid fromPos
  let captured := getCell b.grid toPos
  let g1 := setCell b.grid toPos u
  let g2 := setCell g1 fromPos none
  (captured, { b with grid := g2 })

/-- `BoardManager.undoMove`: writes the remembered occupants back. -/
def undoMove (b : BoardManager) (fromPos toPos : Position) (u : Unit)
    (captured : Option Unit) : BoardManager :=
  let g1 := setCell b.grid fromPos (some u)
  let g2 := setCell g1 toPos captured
  { b with grid := g2 }

/-- The inner loop of `isCheckmate` for one friendly unit: simulate each
candidate move, test check, undo; report whether an escaping move was found,
together with the board state left behind. -/
def tryMoves (t : Team) (u : Unit) (b : BoardManager) :
    List Position → Bool × BoardManager
  | [] => (false, b)
  | m :: ms =>
    let sim := simulateMove b u.pos m
    let stillInCheck := isKingInCheck sim.2 t
    let b2 := undoMove sim.2 u.pos m u sim.1
    if stillInCheck then tryMoves t u b2 ms else (true, b2)

/-- The outer loop of `isCheckmate` over the friendly units.  For each unit
the candidate list is `getValidMoves` evaluated on the CURRENT board state. -/
def tryUnits (t : Team) (b : BoardManager) :
    List Unit → Bool × BoardManager
  | [] => (false, b)
  | u :: us =>
    let r := tryMoves t u b (getValidMoves b u.pos)
    if r.1 then r else tryUnits t r.2 us

/-- `BoardManager.isCheckmate`, with the board state threaded explicitly:
the Bool result plus the board state at return time. -/
def isCheckmate (b : BoardManager) (t : Team) : Bool × BoardManager :=
  if ¬ isKingInCheck b t then (false, b)
  else
    let r := tryUnits t b (getUnitsByTeam b t)
    (! r.1, r.2)

/-- Stage-based blunder chance from `BattleScene.makeEnemyMove`, with the
decimal literals `0.4` and `0.2` modelled as the exact rationals `2/5` and
`1/5`. -/
def blunderChance (currentStage : Nat) : ℚ :=
  if 10 ≤ currentStage then 0
  else if 5 ≤ currentStage then 1 / 5
  else 2 / 5 - (((currentStage : ℚ) - 1) / 4) * (1 / 5)

/-- Shape agreement between the `rows`/`cols` fields and the stored grid. -/
def wellFormed (b : BoardManager) : Prop :=
  b.grid.length = b.rows ∧ ∀ row ∈ b.grid, row.length = b.cols

/-- Every occupant's stored position equals the cell it occupies (object
positions in sync with the grid, as maintained by `placeUnit`/`moveUnit`). -/
def PosConsistent (b : BoardManager) : Prop :=
  ∀ r < b.rows, ∀ c < b.cols,
    ((getCell b.grid ⟨(r : Int), (c : Int)⟩).map Unit.pos).getD ⟨(r : Int), (c : Int)⟩
      = ⟨(r : Int), (c : Int)⟩

instance instDecidableWellFormed (b : BoardManager) : Decidable (wellFormed b) := by
  unfold wellFormed
  infer_instance

instance instDecidablePosConsistent (b : BoardManager) : Decidable (PosConsistent b) := by
  unfold PosConsistent
  infer_instance

/-- A position denotes an actual cell of the stored grid. -/
def inBounds (g : Grid) (p : Position) : Prop :=
  0 ≤ p.row ∧ 0 ≤ p.col ∧
    ∃ row, g[p.row.toNat]? = some row ∧ p.col.toNat < row.length

/-- Sample rook for the 5x5 scenario of the spec. -/
def sampleRook : Unit := ⟨0, PieceType.ROOK, Team.PLAYER, ⟨2, 2⟩, [], 1, 1, false⟩

/-- An empty row of width 5. -/
def emptyRow5 : List (Option Unit) := [none, none, none, none, none]

/-- Otherwise-empty 5x5 board with a player rook at (2,2). -/
def rookBoard : BoardManager :=
  ⟨5, 5, [emptyRow5, emptyRow5, [none, none, some sampleRook, none, none],
          emptyRow5, emptyRow5]⟩

/-- The 8 ray cells reachable from (2,2) on an empty 5x5 board, in the
order the rook movement code emits them (down, up, right, left). -/
def rookRayCells : List Position :=
  [⟨3, 2⟩, ⟨4, 2⟩, ⟨1, 2⟩, ⟨0, 2⟩, ⟨2, 3⟩, ⟨2, 4⟩, ⟨2, 1⟩, ⟨2, 0⟩]

/-- A pawn stored at (0,0). -/
def pawnA : Unit := ⟨0, PieceType.PAWN, Team.PLAYER, ⟨0, 0⟩, [], 1, 1, false⟩

/-- A pawn stored at (1,0). -/
def pawnB : Unit := ⟨1, PieceType.PAWN, Team.PLAYER, ⟨1, 0⟩, [], 1, 1, false⟩

/-- 2x1 board with a unit in the top row. -/
def topUnitBoard : BoardManager := ⟨2, 1, [[some pawnA], [none]]⟩

/-- 2x1 board with a unit in the bottom row. -/
def bottomUnitBoard : BoardManager := ⟨2, 1, [[none], [some pawnB]]⟩

/-- 1x2 board with a unit in the left column. -/
def leftUnitBoard : BoardManager := ⟨1, 2, [[some pawnA, none]]⟩

/-- 1x1 board with a single pawn (used for the `moveUnit` self-move case). -/
def selfMoveBoard : BoardManager := ⟨1, 1, [[some pawnA]]⟩

/-- Enemy pawn stored at (0,1). -/
def victimPawn : Unit := ⟨1, PieceType.PAWN, Team.ENEMY, ⟨0, 1⟩, [], 1, 1, false⟩

/-- 1x2 board: player pawn at (0,0), enemy pawn at (0,1). -/
def captureBoard : BoardManager := ⟨1, 2, [[some pawnA, some victimPawn]]⟩

/-- Friendly pawn stored at (0,1). -/
def allyPawn : Unit := ⟨1, PieceType.PAWN, Team.PLAYER, ⟨0, 1⟩, [], 1, 1, false⟩

/-- 1x2 board: two PLAYER pawns side by side. -/
def friendlyBoard : BoardManager := ⟨1, 2, [[some pawnA, some allyPawn]]⟩

/-- A player king stored at (0,0). -/
def sampleKing : Unit := ⟨0, PieceType.KING, Team.PLAYER, ⟨0, 0⟩, [], 1, 1, false⟩

/-- 1x1 board holding just the player king. -/
def kingOnlyBoard : BoardManager := ⟨1, 1, [[some sampleKing]]⟩

/-- An enemy rook stored at (0,2). -/
def enemyRook : Unit := ⟨1, PieceType.ROOK, Team.ENEMY, ⟨0, 2⟩, [], 1, 1, false⟩

/-- 1x3 board: player king at (0,0) checked by the enemy rook at (0,2). -/
def checkBoard : BoardManager := ⟨1, 3, [[some sampleKing, none, some enemyRook]]⟩

/-- A knight carrying the DOUBLE_MOVE buff, stored at (0,0). -/
def doubleKnight : Unit :=
  ⟨0, PieceType.KNIGHT, Team.PLAYER, ⟨0, 0⟩, [BuffType.DOUBLE_MOVE], 1, 1, false⟩

/-- 5x5 board with the double-move knight at (0,0). -/
def knightBoard : BoardManager :=
  ⟨5, 5, [[some doubleKnight, none, none, none, none],
          emptyRow5, emptyRow5, emptyRow5, emptyRow5]⟩

theorem set_eq_self_of_getElem?_eq_some {α : Type} {l : List α} {n : Nat} {a : α}
    (h : l[n]? = some a) : l.set n a = l := by
  induction l generalizing n with
  | nil => simp at h
  | cons x xs ih =>
    cases n with
    | zero =>
      simp only [List.getElem?_cons_zero, Option.some.injEq] at h
      simp [h]
    | succ m =>
      simp only [List.getElem?_cons_succ] at h
      simp [ih h]

theorem set_eq_self_of_getElem?_eq_none {α : Type} {l : List α} {n : Nat} (a : α)
    (h : l[n]? = none) : l.set n a = l := by
  induction l generalizing n with
  | nil => rfl
  | cons x xs ih =>
    cases n with
    | zero => simp at h
    | succ m =>
      simp only [List.getElem?_cons_succ] at h
      simp [ih h]

theorem getCell_some_nonneg {g : Grid} {p : Position} {u : Unit}
    (h : getCell g p = some u) : 0 ≤ p.row ∧ 0 ≤ p.col := by
  unfold getCell at h
  split at h
  · simp at h
  · next hneg =>
    push_neg at hneg
    exact ⟨hneg.1, hneg.2⟩

theorem getCell_some_inBounds {g : Grid} {p : Position} {u : Unit}
    (h : getCell g p = some u) : inBounds g p := by
  have hnn := getCell_some_nonneg h
  unfold getCell at h
  split at h
  · simp at h
  · cases hg : g[p.row.toNat]? with
    | none => simp [hg] at h
    | some row =>
      simp only [hg] at h
      cases hc : row[p.col.toNat]? with
      | none => simp [hc] at h
      | some cell =>
        exact ⟨hnn.1, hnn.2, row, hg, (List.getElem?_eq_some.mp hc).1⟩

theorem setCell_setCell_same (g : Grid) (p : Position) (v w : Option Unit) :
    setCell (setCell g p v) p w = setCell g p w := by
  unfold setCell
  split
  · rfl
  · cases hg : g[p.row.toNat]? with
    | none => simp [hg]
    | some row =>
      have hlt : p.row.toNat < g.length := (List.getElem?_eq_some.mp hg).1
      have hset := List.getElem?_set_eq_of_lt (row.set p.col.toNat v) hlt
      simp only [hg, hset, List.set_set]

theorem getCell_setCell_ne (g : Grid) {p q : Position} (v : Option Unit)
    (hne : p ≠ q) : getCell (setCell g p v) q = getCell g q := by
  obtain ⟨pr, pc⟩ := p
  obtain ⟨qr, qc⟩ := q
  unfold getCell setCell
  by_cases hp : pr < 0 ∨ pc < 0
  · simp [hp]
  by_cases hq : qr < 0 ∨ qc < 0
  · simp [hp, hq]
  push_neg at hp hq
  simp only [if_neg (by omega : ¬(pr < 0 ∨ pc < 0)),
    if_neg (by omega : ¬(qr < 0 ∨ qc < 0))]
  cases hg : g[(Position.mk pr pc).row.toNat]? with
  | none => rfl
  | some row =>
    simp only
    by_cases hrow : pr = qr
    · have hcol : pc ≠ qc := by
        intro hcc
        exact hne (by simp [hrow, hcc])
      subst hrow
      have hlt : pr.toNat < g.length := (List.getElem?_eq_some.mp hg).1
      rw [List.getElem?_set_eq_of_lt _ hlt]
      simp only [hg]
      rw [List.getElem?_set_ne (by omega : pc.toNat ≠ qc.toNat)]
    · rw [List.getElem?_set_ne (by omega : pr.toNat ≠ qr.toNat)]

theorem setCell_getCell_self (g : Grid) (p : Position) :
    setCell g p (getCell g p) = g := by
  unfold getCell setCell
  split
  · rfl
  · cases hg : g[p.row.toNat]? with
    | none => rfl
    | some row =>
      simp only
      cases hc : row[p.col.toNat]? with
      | none =>
        rw [set_eq_self_of_getElem?_eq_none _ hc]
        exact set_eq_self_of_getElem?_eq_some hg
      | some cell =>
        rw [set_eq_self_of_getElem?_eq_some hc]
        exact set_eq_self_of_getElem?_eq_some hg

theorem getCell_setCell_self {g : Grid} {p : Position} (v : Option Unit)
    (h : inBounds g p) : getCell (setCell g p v) p = v := by
  obtain ⟨h1, h2, row, hg, hc⟩ := h
  have hlt : p.row.toNat < g.length := (List.getElem?_eq_some.mp hg).1
  have hs1 := List.getElem?_set_eq_of_lt (row.set p.col.toNat v) hlt
  have hs2 : (row.set p.col.toNat v)[p.col.toNat]? = some v :=
    List.getElem?_set_eq_of_lt v hc
  unfold getCell setCell
  simp only [if_neg (by omega : ¬(p.row < 0 ∨ p.col < 0)), hg, hs1, hs2]

theorem setCell_length (g : Grid) (p : Position) (v : Option Unit) :
    (setCell g p v).length = g.length := by
  unfold setCell
  split
  · rfl
  · split
    · rfl
    · exact List.length_set ..

theorem setCell_row_length (g : Grid) (p : Position) (v : Option Unit) (n : Nat) :
    ((setCell g p v)[n]?).map List.length = (g[n]?).map List.length := by
  unfold setCell
  split
  · rfl
  · cases hg : g[p.row.toNat]? with
    | none => rfl
    | some row =>
      simp only
      by_cases hn : p.row.toNat = n
      · subst hn
        have hlt : p.row.toNat < g.length := (List.getElem?_eq_some.mp hg).1
        rw [List.getElem?_set_eq_of_lt _ hlt, hg]
        simp
      · rw [List.getElem?_set_ne hn]

theorem inBounds_setCell {g : Grid} {q : Position} (p : Position) (v : Option Unit)
    (h : inBounds g q) : inBounds (setCell g p v) q := by
  obtain ⟨h1, h2, row, hg, hc⟩ := h
  have hmap := setCell_row_length g p v q.row.toNat
  rw [hg] at hmap
  cases hrow : (setCell g p v)[q.row.toNat]? with
  | none => rw [hrow] at hmap; simp at hmap
  | some row2 =>
    rw [hrow] at hmap
    simp at hmap
    refine ⟨h1, h2, row2, hrow, ?_⟩
    omega

theorem wellFormed_inBounds {b : BoardManager} {p : Position}
    (hwf : wellFormed b) (hv : isValidPosition b p = true) : inBounds b.grid p := by
  obtain ⟨hlen, hrows⟩ := hwf
  unfold isValidPosition at hv
  simp only [decide_eq_true_eq] at hv
  obtain ⟨h1, h2, h3, h4⟩ := hv
  have hlt : p.row.toNat < b.grid.length := by omega
  refine ⟨h1, h3, b.grid[p.row.toNat], List.getElem?_eq_getElem hlt, ?_⟩
  have hmem : b.grid[p.row.toNat] ∈ b.grid := List.getElem_mem hlt
  have := hrows _ hmem
  omega

theorem sim_undo_grid {g : Grid} {fromPos toPos : Position} {u : Unit}
    (hf : getCell g fromPos = some u) :
    setCell (setCell (setCell (setCell g toPos (getCell g fromPos)) fromPos none)
        fromPos (some u)) toPos (getCell g toPos) = g := by
  rw [hf, setCell_setCell_same]
  by_cases he : fromPos = toPos
  · subst he
    rw [setCell_setCell_same, setCell_setCell_same, setCell_getCell_self]
  · have hf2 : getCell (setCell g toPos (some u)) fromPos = some u :=
      (getCell_setCell_ne g (some u) (fun hx => he hx.symm)).trans hf
    have h1 : setCell (setCell g toPos (some u)) fromPos (some u)
        = setCell g toPos (some u) := by
      nth_rewrite 2 [← hf2]
      exact setCell_getCell_self ..
    rw [h1, setCell_setCell_same, setCell_getCell_self]

theorem simulateMove_undoMove {b : BoardManager} {fromPos toPos : Position} {u : Unit}
    (hf : getCell b.grid fromPos = some u) :
    undoMove (simulateMove b fromPos toPos).2 fromPos toPos u
      (simulateMove b fromPos toPos).1 = b := by
  unfold simulateMove undoMove
  cases b with
  | mk rows cols grid =>
    simp only [BoardManager.mk.injEq, true_and]
    exact sim_undo_grid hf

theorem tryMoves_eq {t : Team} {u : Unit} {b : BoardManager}
    (hf : getCell b.grid u.pos = some u) (ms : List Position) :
    tryMoves t u b ms =
      (ms.any (fun m => ! isKingInCheck (simulateMove b u.pos m).2 t), b) := by
  induction ms with
  | nil => simp [tryMoves]
  | cons m ms ih =>
    unfold tryMoves
    have hrestore := @simulateMove_undoMove b u.pos m u hf
    simp only [hrestore]
    by_cases h : isKingInCheck (simulateMove b u.pos m).2 t
    · simp [h, ih]
    · simp [h]

theorem tryUnits_eq {t : Team} {b : BoardManager} (us : List Unit)
    (hus : ∀ u ∈ us, getCell b.grid u.pos = some u) :
    tryUnits t b us =
      (us.any (fun u => (getValidMoves b u.pos).any
        (fun m => ! isKingInCheck (simulateMove b u.pos m).2 t)), b) := by
  induction us with
  | nil => simp [tryUnits]
  | cons u us ih =>
    have hrec := ih (fun v hv => hus v (by simp [hv]))
    unfold tryUnits
    rw [tryMoves_eq (hus u (by simp))]
    cases h : (getValidMoves b u.pos).any
        (fun m => ! isKingInCheck (simulateMove b u.pos m).2 t) with
    | true => simp [List.any_cons, h]
    | false => simp [List.any_cons, h, hrec]

theorem mem_getUnitsByTeam {b : BoardManager} {t : Team} {u : Unit}
    (h : u ∈ getUnitsByTeam b t) :
    ∃ r c, r < b.rows ∧ c < b.cols ∧
      getCell b.grid ⟨(r : Int), (c : Int)⟩ = some u ∧ u.team = t := by
  unfold getUnitsByTeam at h
  rw [List.mem_filterMap] at h
  obtain ⟨rc, hmem, hf⟩ := h
  unfold cellIndices at hmem
  rw [List.mem_flatMap] at hmem
  obtain ⟨r, hr, hmem⟩ := hmem
  rw [List.mem_map] at hmem
  obtain ⟨c, hc, rfl⟩ := hmem
  rw [List.mem_range] at hr
  rw [List.mem_range] at hc
  cases hcell : getCell b.grid ⟨(r : Int), (c : Int)⟩ with
  | none => rw [hcell] at hf; simp at hf
  | some w =>
    rw [hcell] at hf
    by_cases hteam : w.team = t
    · simp only [hteam, if_pos, Option.some.injEq] at hf
      subst hf
      exact ⟨r, c, hr, hc, hcell, hteam⟩
    · simp [hteam] at hf

theorem getCell_pos_of_mem {b : BoardManager} {t : Team} {u : Unit}
    (hcons : PosConsistent b) (h : u ∈ getUnitsByTeam b t) :
    getCell b.grid u.pos = some u := by
  obtain ⟨r, c, hr, hc, hcell, -⟩ := mem_getUnitsByTeam h
  have hp := hcons r hr c hc
  rw [hcell] at hp
  simp at hp
  rw [hp]
  exact hcell

theorem isCheckmate_eq {b : BoardManager} {t : Team} (hcons : PosConsistent b) :
    isCheckmate b t =
      (isKingInCheck b t &&
        !((getUnitsByTeam b t).any (fun u => (getValidMoves b u.pos).any
          (fun m => ! isKingInCheck (simulateMove b u.pos m).2 t))), b) := by
  unfold isCheckmate
  by_cases hck : isKingInCheck b t
  · rw [tryUnits_eq _ (fun u hu => getCell_pos_of_mem hcons hu)]
    simp [hck]
  · simp [hck]

/-- C3: for every position-consistent board and every team, `isCheckmate`
leaves the board exactly as it was before the call — each
simulate/verify/undo cycle restores both the source and destination cells to
their prior occupants, so no simulated state escapes the call. -/
theorem isCheckmate_preserves_board (b : BoardManager) (t : Team)
    (hcons : PosConsistent b) : (isCheckmate b t).2 = b := by
  rw [isCheckmate_eq hcons]

theorem isCheckmate_preserves_board_witness :
    (isCheckmate checkBoard Team.PLAYER).2 = checkBoard :=
  isCheckmate_preserves_board checkBoard Team.PLAYER (by decide)

/-- C2: on a position-consistent board, `isCheckmate team` returns true if
and only if the team's king is in check and every legal move of every piece
of that team, once simulated, still leaves `isKingInCheck team` true; in
particular it is false whenever some legal move escapes check. -/
theorem isCheckmate_iff (b : BoardManager) (t : Team) (hcons : PosConsistent b) :
    (isCheckmate b t).1 = true ↔
      (isKingInCheck b t = true ∧
        ∀ u ∈ getUnitsByTeam b t, ∀ m ∈ getValidMoves b u.pos,
          isKingInCheck (simulateMove b u.pos m).2 t = true) := by
  rw [isCheckmate_eq hcons]
  simp [List.any_eq_true]

theorem isCheckmate_iff_witness :
    (isCheckmate kingOnlyBoard Team.PLAYER).1 ≠ true := by
  intro h
  have h2 := (isCheckmate_iff kingOnlyBoard Team.PLAYER (by decide)).mp h
  exact absurd h2.1 (by decide)

/-- C6: if a team has no KING piece among its units on the board, then
`isKingInCheck` returns false for it, and consequently `isCheckmate` also
returns false. -/
theorem no_king_no_check (b : BoardManager) (t : Team)
    (h : ∀ u ∈ getUnitsByTeam b t, u.type ≠ PieceType.KING) :
    isKingInCheck b t = false ∧ (isCheckmate b t).1 = false := by
  have hk : isKingInCheck b t = false := by
    unfold isKingInCheck
    have hfind : (getUnitsByTeam b t).find? (fun u => u.type = PieceType.KING) = none := by
      rw [List.find?_eq_none]
      intro x hx
      simp [h x hx]
    rw [hfind]
  refine ⟨hk, ?_⟩
  unfold isCheckmate
  simp [hk]

theorem no_king_no_check_witness :
    isKingInCheck selfMoveBoard Team.PLAYER = false ∧
      (isCheckmate selfMoveBoard Team.PLAYER).1 = false :=
  no_king_no_check selfMoveBoard Team.PLAYER (by decide)

/-- C5: every rejected board operation returns an explicit no-effect result
and leaves the board unchanged: `placeUnit` returns false on an invalid or
occupied position without overwriting; `moveUnit` returns nothing and
changes nothing when either position is invalid or the source is empty;
`removeUnit` returns nothing on an invalid position; all are total
functions, so none raises an error. -/
theorem rejected_ops_no_effect :
    (∀ b u p, isValidPosition b p = false → placeUnit b u p = (false, b)) ∧
    (∀ b u p w, isValidPosition b p = true → getCell b.grid p = some w →
      placeUnit b u p = (false, b)) ∧
    (∀ b p q, isValidPosition b p = false ∨ isValidPosition b q = false →
      moveUnit b p q = (none, b)) ∧
    (∀ b p q, isValidPosition b p = true → isValidPosition b q = true →
      getCell b.grid p = none → moveUnit b p q = (none, b)) ∧
    (∀ b p, isValidPosition b p = false → removeUnit b p = (none, b)) := by
  refine ⟨?_, ?_, ?_, ?_, ?_⟩
  · intro b u p h
    simp [placeUnit, h]
  · intro b u p w h1 h2
    simp [placeUnit, h1, h2]
  · intro b p q h
    rcases h with h | h <;> simp [moveUnit, h]
  · intro b p q h1 h2 h3
    simp [moveUnit, h1, h2, h3]
  · intro b p h
    simp [removeUnit, h]

theorem rejected_ops_no_effect_witness :
    placeUnit captureBoard pawnB ⟨0, 5⟩ = (false, captureBoard) ∧
    placeUnit captureBoard pawnB ⟨0, 1⟩ = (false, captureBoard) ∧
    moveUnit captureBoard ⟨0, 5⟩ ⟨0, 0⟩ = (none, captureBoard) ∧
    moveUnit topUnitBoard ⟨1, 0⟩ ⟨0, 0⟩ = (none, topUnitBoard) ∧
    removeUnit captureBoard ⟨2, 0⟩ = (none, captureBoard) :=
  ⟨rejected_ops_no_effect.1 captureBoard pawnB ⟨0, 5⟩ (by decide),
   rejected_ops_no_effect.2.1 captureBoard pawnB ⟨0, 1⟩ victimPawn (by decide) (by decide),
   rejected_ops_no_effect.2.2.1 captureBoard ⟨0, 5⟩ ⟨0, 0⟩ (Or.inl (by decide)),
   rejected_ops_no_effect.2.2.2.1 topUnitBoard ⟨1, 0⟩ ⟨0, 0⟩ (by decide) (by decide) (by decide),
   rejected_ops_no_effect.2.2.2.2 captureBoard ⟨2, 0⟩ (by decide)⟩

theorem moveUnit_eq (b : BoardManager) (fromPos toPos : Position) (u : Unit)
    (hvf : isValidPosition b fromPos = true) (hvt : isValidPosition b toPos = true)
    (hu : getCell b.grid fromPos = some u) :
    moveUnit b fromPos toPos =
      (getCell b.grid toPos,
        { b with grid :=
            setCell (setCell b.grid toPos (some { u with pos := toPos })) fromPos none }) := by
  unfold moveUnit
  simp [hvf, hvt, hu]

/-- C4 counterexample: when `fromPos = toPos`, a "successful" `moveUnit`
(valid positions, occupied source) returns the unit itself as captured and
leaves the destination cell EMPTY instead of holding the moved piece. -/
theorem moveUnit_self_counterexample :
    isValidPosition selfMoveBoard ⟨0, 0⟩ = true ∧
    getCell selfMoveBoard.grid ⟨0, 0⟩ = some pawnA ∧
    (moveUnit selfMoveBoard ⟨0, 0⟩ ⟨0, 0⟩).1 = some pawnA ∧
    getUnit (moveUnit selfMoveBoard ⟨0, 0⟩ ⟨0, 0⟩).2 ⟨0, 0⟩ = none := by decide

/-- C4 (amended with `fromPos ≠ toPos`): after a successful `moveUnit` on a
well-formed board, the source cell is empty, the destination holds the moved
piece (with its stored position updated), the prior occupant of the
destination is returned, and — when that occupant's identity occurred
nowhere else on the board — no cell of the resulting board holds it any
more. -/
theorem moveUnit_spec (b : BoardManager) (fromPos toPos : Position) (u : Unit)
    (hwf : wellFormed b) (hvf : isValidPosition b fromPos = true)
    (hvt : isValidPosition b toPos = true) (hne : fromPos ≠ toPos)
    (hu : getCell b.grid fromPos = some u) :
    (moveUnit b fromPos toPos).1 = getCell b.grid toPos ∧
    getUnit (moveUnit b fromPos toPos).2 fromPos = none ∧
    getUnit (moveUnit b fromPos toPos).2 toPos = some { u with pos := toPos } ∧
    (∀ cap, getCell b.grid toPos = some cap →
      (∀ r < b.rows, ∀ c < b.cols, (⟨(r : Int), (c : Int)⟩ : Position) ≠ toPos →
        (getCell b.grid ⟨(r : Int), (c : Int)⟩).map Unit.id ≠ some cap.id) →
      ∀ r < b.rows, ∀ c < b.cols,
        (getCell (moveUnit b fromPos toPos).2.grid ⟨(r : Int), (c : Int)⟩).map Unit.id
          ≠ some cap.id) := by
  have hbf : inBounds b.grid fromPos := wellFormed_inBounds hwf hvf
  have hbt : inBounds b.grid toPos := wellFormed_inBounds hwf hvt
  have hmove := moveUnit_eq b fromPos toPos u hvf hvt hu
  have hgrid : (moveUnit b fromPos toPos).2.grid =
      setCell (setCell b.grid toPos (some { u with pos := toPos })) fromPos none := by
    rw [hmove]
  have hrows : (moveUnit b fromPos toPos).2.rows = b.rows := by rw [hmove]
  have hcols : (moveUnit b fromPos toPos).2.cols = b.cols := by rw [hmove]
  have hfromCell : getCell (moveUnit b fromPos toPos).2.grid fromPos = none := by
    rw [hgrid]
    exact getCell_setCell_self none (inBounds_setCell toPos _ hbf)
  have htoCell : getCell (moveUnit b fromPos toPos).2.grid toPos
      = some { u with pos := toPos } := by
    rw [hgrid, getCell_setCell_ne _ none hne]
    exact getCell_setCell_self _ hbt
  have hvalid : ∀ q : Position, isValidPosition (moveUnit b fromPos toPos).2 q
      = isValidPosition b q := by
    intro q
    unfold isValidPosition
    rw [hrows, hcols]
  refine ⟨by rw [hmove], ?_, ?_, ?_⟩
  · unfold getUnit
    rw [hvalid, hvf, if_pos rfl, hfromCell]
  · unfold getUnit
    rw [hvalid, hvt, if_pos rfl, htoCell]
  · intro cap hcap honly r hr c hc
    have hvfP := hvf
    unfold isValidPosition at hvfP hvt
    simp only [decide_eq_true_eq] at hvfP hvt
    have huid : u.id ≠ cap.id := by
      have hfr : fromPos.row.toNat < b.rows := by omega
      have hfc : fromPos.col.toNat < b.cols := by omega
      have hpos : (⟨(fromPos.row.toNat : Int), (fromPos.col.toNat : Int)⟩ : Position)
          = fromPos := by
        have h1 : ((fromPos.row.toNat : Int)) = fromPos.row :=
          Int.toNat_of_nonneg hvfP.1
        have h2 : ((fromPos.col.toNat : Int)) = fromPos.col :=
          Int.toNat_of_nonneg hvfP.2.2.1
        rw [h1, h2]
      have := honly fromPos.row.toNat hfr fromPos.col.toNat hfc (by rw [hpos]; exact hne)
      rw [hpos, hu] at this
      simp only [Option.map_some'] at this
      intro hx
      exact this (by rw [hx])
    set p : Position := ⟨(r : Int), (c : Int)⟩ with hp
    by_cases hpf : p = fromPos
    · rw [hpf, hfromCell]
      simp
    · by_cases hpt : p = toPos
      · rw [hpt, htoCell]
        simpa using huid
      · rw [hgrid, getCell_setCell_ne _ none (fun hx => hpf hx.symm),
          getCell_setCell_ne _ _ (fun hx => hpt hx.symm)]
        exact honly r hr c hc hpt

theorem moveUnit_spec_witness :
    (moveUnit captureBoard ⟨0, 0⟩ ⟨0, 1⟩).1 = some victimPawn ∧
    getUnit (moveUnit captureBoard ⟨0, 0⟩ ⟨0, 1⟩).2 ⟨0, 0⟩ = none ∧
    getUnit (moveUnit captureBoard ⟨0, 0⟩ ⟨0, 1⟩).2 ⟨0, 1⟩
      = some { pawnA with pos := ⟨0, 1⟩ } ∧
    (getCell (moveUnit captureBoard ⟨0, 0⟩ ⟨0, 1⟩).2.grid ⟨0, 0⟩).map Unit.id
      ≠ some victimPawn.id := by
  have h := moveUnit_spec captureBoard ⟨0, 0⟩ ⟨0, 1⟩ pawnA (by decide) (by decide)
    (by decide) (by decide) (by decide)
  refine ⟨h.1.trans (by decide), h.2.1, h.2.2.1, ?_⟩
  exact h.2.2.2 victimPawn (by decide) (by decide) 0 (by decide) 0 (by decide)

/-- C10 (implicit): `moveUnit` performs no allegiance check — for distinct
valid positions with a unit at the source it always performs the move and
returns the destination's prior occupant, even when that occupant belongs to
the mover's own team; excluding own-team destinations is left entirely to
`getValidMoves`, which never offers a move onto a same-team unit. -/
theorem moveUnit_no_allegiance (b : BoardManager) (fromPos toPos : Position) (u : Unit)
    (hvf : isValidPosition b fromPos = true) (hvt : isValidPosition b toPos = true)
    (_hne : fromPos ≠ toPos) (hu : getCell b.grid fromPos = some u) :
    (moveUnit b fromPos toPos =
      (getCell b.grid toPos,
        { b with grid :=
            setCell (setCell b.grid toPos (some { u with pos := toPos })) fromPos none })) ∧
    (∀ w, getCell b.grid toPos = some w → w.team = u.team →
      (moveUnit b fromPos toPos).1 = some w) ∧
    (∀ p m v w, getUnit b p = some v → m ∈ getValidMoves b p →
      getUnit b m = some w → w.team ≠ v.team) := by
  have hmove := moveUnit_eq b fromPos toPos u hvf hvt hu
  refine ⟨hmove, ?_, ?_⟩
  · intro w hw _
    rw [hmove]
    exact hw
  · intro p m v w hv hm hw
    unfold getValidMoves at hm
    rw [hv] at hm
    rw [List.mem_filter] at hm
    have hpred := hm.2
    rw [hw] at hpred
    simp only [Bool.and_eq_true, decide_eq_true_eq] at hpred
    exact hpred.2

theorem moveUnit_no_allegiance_witness :
    (moveUnit friendlyBoard ⟨0, 0⟩ ⟨0, 1⟩).1 = some allyPawn ∧
    allyPawn.team = pawnA.team := by
  have h := moveUnit_no_allegiance friendlyBoard ⟨0, 0⟩ ⟨0, 1⟩ pawnA (by decide)
    (by decide) (by decide) (by decide)
  exact ⟨h.2.1 allyPawn (by decide) (by decide), by decide⟩

/-- C8 counterexample: on the otherwise empty 5x5 board with a player rook
at (2,2), the legal-move query yields 8 cells, not 16 — a rook at the centre
of a 5x5 board has exactly two cells per ray direction. -/
theorem rook_moves_not_sixteen :
    (getValidMoves rookBoard ⟨2, 2⟩).length = 8 ∧
    (getValidMoves rookBoard ⟨2, 2⟩).length ≠ 16 := by decide

/-- C8 (amended from 16 to 8): on an otherwise empty 5x5 board with a player
rook at (2,2), the legal-move query returns exactly the 8 cells in the 4 ray
directions up to the board edge. -/
theorem rook_moves_all_ray_cells :
    getValidMoves rookBoard ⟨2, 2⟩ = rookRayCells := by decide

/-- C1 (code bug): `addRows(n, atTop := true)` shifts grid cells by `n` but
corrupts stored unit positions.  `updateAllUnitPositions` runs on the
already-shifted grid while `rows` still holds the old count, so a unit now
found at grid row `r + n` has its stored position set to `r + 2n` (double
shift) when `r + n` is still below the old row count, and keeps its stale
position `r` otherwise; `addColumns(n, atLeft := true)` misbehaves the same
way.  Concretely: a unit in row 0 of a 2x1 board lands at grid cell (1,0)
but reports position (2,0); a unit in row 1 lands at (2,0) but reports
(1,0); a unit in column 0 of a 1x2 board lands at (0,1) but reports (0,2). -/
theorem addRows_top_position_bug :
    getCell (addRows topUnitBoard 1 true).grid ⟨1, 0⟩
      = some { pawnA with pos := ⟨2, 0⟩ } ∧
    (getCell (addRows topUnitBoard 1 true).grid ⟨1, 0⟩).map Unit.pos
      ≠ some (⟨1, 0⟩ : Position) ∧
    getCell (addRows bottomUnitBoard 1 true).grid ⟨2, 0⟩ = some pawnB ∧
    (getCell (addRows bottomUnitBoard 1 true).grid ⟨2, 0⟩).map Unit.pos
      ≠ some (⟨2, 0⟩ : Position) ∧
    getCell (addColumns leftUnitBoard 1 true).grid ⟨0, 1⟩
      = some { pawnA with pos := ⟨0, 2⟩ } ∧
    (getCell (addColumns leftUnitBoard 1 true).grid ⟨0, 1⟩).map Unit.pos
      ≠ some (⟨0, 1⟩ : Position) := by decide

theorem knightStep_subset (b : BoardManager) (team : Team) (moves : List Position)
    (np : Position) : moves ⊆ knightStep b team moves np := by
  unfold knightStep
  split
  · exact List.subset_append_left _ _
  · exact fun a h => h

theorem knightStep_nodup (b : BoardManager) (team : Team) {moves : List Position}
    (np : Position) (h : moves.Nodup) : (knightStep b team moves np).Nodup := by
  unfold knightStep
  split
  · next hcond =>
    simp only [Bool.and_eq_true, Bool.not_eq_true'] at hcond
    have hnotmem : np ∉ moves := by
      intro hmem
      have hc : moves.contains np = true := List.elem_iff.mpr hmem
      rw [hcond.2] at hc
      cases hc
    rw [List.nodup_append]
    refine ⟨h, List.nodup_singleton _, ?_⟩
    intro a ha hb
    rw [List.mem_singleton] at hb
    subst hb
    exact hnotmem ha
  · exact h

theorem innerFold_subset (b : BoardManager) (team : Team) (os : List Position)
    (ip : Position) :
    ∀ moves : List Position,
      moves ⊆ os.foldl (fun acc o => knightStep b team acc (offsetPos ip o)) moves := by
  induction os with
  | nil => exact fun moves a h => h
  | cons o os ih =>
    intro moves a h
    exact ih (knightStep b team moves (offsetPos ip o))
      (knightStep_subset b team moves (offsetPos ip o) h)

theorem innerFold_nodup (b : BoardManager) (team : Team) (os : List Position)
    (ip : Position) :
    ∀ moves : List Position, moves.Nodup →
      (os.foldl (fun acc o => knightStep b team acc (offsetPos ip o)) moves).Nodup := by
  induction os with
  | nil => exact fun moves h => h
  | cons o os ih =>
    intro moves h
    exact ih (knightStep b team moves (offsetPos ip o))
      (knightStep_nodup b team (offsetPos ip o) h)

theorem outerFold_subset (b : BoardManager) (team : Team) (inters : List Position) :
    ∀ moves : List Position,
      moves ⊆ inters.foldl
        (fun acc ip => knightOffsets.foldl
          (fun acc o => knightStep b team acc (offsetPos ip o)) acc) moves := by
  induction inters with
  | nil => exact fun moves a h => h
  | cons ip ips ih =>
    intro moves a h
    exact ih _ (innerFold_subset b team knightOffsets ip moves h)

theorem outerFold_nodup (b : BoardManager) (team : Team) (inters : List Position) :
    ∀ moves : List Position, moves.Nodup →
      (inters.foldl
        (fun acc ip => knightOffsets.foldl
          (fun acc o => knightStep b team acc (offsetPos ip o)) acc) moves).Nodup := by
  induction inters with
  | nil => exact fun moves h => h
  | cons ip ips ih =>
    intro moves h
    exact ih _ (innerFold_nodup b team knightOffsets ip moves h)

theorem offsetPos_injective (p : Position) : Function.Injective (offsetPos p) := by
  intro x y hxy
  cases x
  cases y
  simp only [offsetPos, Position.mk.injEq] at hxy ⊢
  omega

theorem knightBase_nodup (b : BoardManager) (u : Unit) (currentPos : Position) :
    (knightBase b u currentPos).Nodup := by
  unfold knightBase
  exact List.Nodup.filter _ (List.Nodup.map (offsetPos_injective currentPos) (by decide))

/-- C9: for every board and position, a knight carrying the DOUBLE_MOVE
modifier generates a move list that contains every move of its base 8-offset
admissible set (each first-hop destination is treated as a new origin whose
knight moves are unioned in), and the resulting list has no duplicate
destinations. -/
theorem knight_double_superset_nodup (b : BoardManager) (u : Unit)
    (currentPos : Position) (ht : u.type = PieceType.KNIGHT)
    (hbuff : hasBuff u BuffType.DOUBLE_MOVE = true) :
    knightBase b u currentPos ⊆ getPossibleMoves b u currentPos ∧
    (getPossibleMoves b u currentPos).Nodup := by
  unfold getPossibleMoves
  rw [ht]
  unfold knightMoves
  rw [hbuff]
  simp only [if_true]
  exact ⟨outerFold_subset b u.team (knightBase b u currentPos) (knightBase b u currentPos),
    outerFold_nodup b u.team (knightBase b u currentPos) (knightBase b u currentPos)
      (knightBase_nodup b u currentPos)⟩

theorem knight_double_superset_nodup_witness :
    (⟨2, 1⟩ : Position) ∈ getPossibleMoves knightBoard doubleKnight ⟨0, 0⟩ ∧
    (getPossibleMoves knightBoard doubleKnight ⟨0, 0⟩).Nodup := by
  have h := knight_double_superset_nodup knightBoard doubleKnight ⟨0, 0⟩
    (by decide) (by decide)
  exact ⟨h.1 (by decide), h.2⟩

/-- C7: the opponent blunder probability as a function of the stage number
is 0 for stages of 10 and above, 1/5 (i.e. 0.2) for stages 5 through 9,
follows the linear ramp `2/5 - ((s-1)/4) * (1/5)` for stages 1 through 4,
is non-increasing on the stage interval [1, 10], and equals 2/5 (0.4) at
stage 1 and 1/5 (0.2) at stage 5. -/
theorem blunderChance_spec :
    (∀ s : Nat, 10 ≤ s → blunderChance s = 0) ∧
    (∀ s : Nat, 5 ≤ s → s < 10 → blunderChance s = 1 / 5) ∧
    (∀ s : Nat, 1 ≤ s → s < 5 →
      blunderChance s = 2 / 5 - (((s : ℚ) - 1) / 4) * (1 / 5)) ∧
    (∀ s t : Nat, 1 ≤ s → s ≤ t → t ≤ 10 → blunderChance t ≤ blunderChance s) ∧
    blunderChance 1 = 2 / 5 ∧ blunderChance 5 = 1 / 5 := by
  refine ⟨?_, ?_, ?_, ?_, by norm_num [blunderChance], by norm_num [blunderChance]⟩
  · intro s h
    simp [blunderChance, h]
  · intro s h1 h2
    unfold blunderChance
    rw [if_neg (by omega), if_pos h1]
  · intro s h1 h2
    unfold blunderChance
    rw [if_neg (by omega), if_neg (by omega)]
  · intro s t h1 h2 h3
    unfold blunderChance
    by_cases ht10 : 10 ≤ t
    · rw [if_pos ht10]
      by_cases hs10 : 10 ≤ s
      · rw [if_pos hs10]
      · rw [if_neg hs10]
        by_cases hs5 : 5 ≤ s
        · rw [if_pos hs5]
          norm_num
        · rw [if_neg hs5]
          have hs4 : (s : ℚ) ≤ 4 := by exact_mod_cast (by omega : s ≤ 4)
          have hs1 : (1 : ℚ) ≤ (s : ℚ) := by exact_mod_cast h1
          nlinarith
    · rw [if_neg ht10, if_neg (by omega : ¬ 10 ≤ s)]
      by_cases ht5 : 5 ≤ t
      · rw [if_pos ht5]
        by_cases hs5 : 5 ≤ s
        · rw [if_pos hs5]
        · rw [if_neg hs5]
          have hs4 : (s : ℚ) ≤ 4 := by exact_mod_cast (by omega : s ≤ 4)
          have hs1 : (1 : ℚ) ≤ (s : ℚ) := by exact_mod_cast h1
          nlinarith
      · rw [if_neg ht5, if_neg (by omega : ¬ 5 ≤ s)]
        have hst : (s : ℚ) ≤ (t : ℚ) := by exact_mod_cast h2
        nlinarith

theorem blunderChance_spec_witness :
    blunderChance 12 = 0 ∧ blunderChance 7 = 1 / 5 ∧
    blunderChance 3 = 2 / 5 - (((3 : ℚ) - 1) / 4) * (1 / 5) ∧
    blunderChance 10 ≤ blunderChance 4 :=
  ⟨blunderChance_spec.1 12 (by norm_num),
   blunderChance_spec.2.1 7 (by norm_num) (by norm_num),
   blunderChance_spec.2.2.1 3 (by norm_num) (by norm_num),
   blunderChance_spec.2.2.2.1 4 10 (by norm_num) (by norm_num) (by norm_num)⟩

end RC
